import Mathlib

/-!
Shallow embedding of the Smart-Trader core (decision aggregation, risk
policy, position ledger, timebox enforcement, reconciliation) and proofs
of the specification claims about it.

Python floats are modelled as rationals (`ℚ`), timestamps as integers
(`ℤ`), and the JSON position ledger as an association list keyed by
symbol strings.  Fallible external calls (order submission) are modelled
as `Except`-valued oracles.
-/

namespace SmartTrader

/-- A vote/decision side: the strings "BUY", "SELL", "HOLD" of the code. -/
inductive Side where
  | BUY
  | SELL
  | HOLD
deriving DecidableEq, Repr

/-- The three advisor horizons. -/
inductive Horizon where
  | short
  | mid
  | long
deriving DecidableEq, Repr

/-- The dict `horizon_map` of `Debate.horizon_decide`: agent name to horizon;
unknown agents map to `none` and are skipped. -/
def horizon_map : String → Option Horizon
  | "ShortTerm" => some .short
  | "MidTerm" => some .mid
  | "LongTerm" => some .long
  | _ => none

/-- One advisor vote as consumed by `Debate`:
`{"agent": ..., "decision": ..., "confidence": ...}`. -/
structure Vote where
  agent : String
  decision : Side
  confidence : ℚ
deriving DecidableEq, Repr

/-- The factor `side_factor` of `horizon_decide`: +1 for BUY, −1 for SELL, 0 otherwise. -/
def side_factor : Side → ℚ
  | .BUY => 1
  | .SELL => -1
  | .HOLD => 0

/-- A per-horizon map of rationals: the Python dict
`{"short": float, "mid": float, "long": float}` (used both for the score
accumulator and for the weights). -/
structure Scores where
  short : ℚ
  mid : ℚ
  long : ℚ
deriving DecidableEq, Repr

def Scores.get (s : Scores) : Horizon → ℚ
  | .short => s.short
  | .mid => s.mid
  | .long => s.long

/-- Python `scores[h] += x`. -/
def Scores.bump (s : Scores) (h : Horizon) (x : ℚ) : Scores :=
  match h with
  | .short => { s with short := s.short + x }
  | .mid => { s with mid := s.mid + x }
  | .long => { s with long := s.long + x }

/-- The `Debate` object: entry/exit thresholds and per-horizon weights. -/
structure Debate where
  enter_th : ℚ
  exit_th : ℚ
  weights : Scores
deriving DecidableEq, Repr

/-- Constructor default `{"short": 0.40, "mid": 0.35, "long": 0.25}`. -/
def default_weights : Scores := ⟨40/100, 35/100, 25/100⟩

/-- One iteration of the scoring loop of `horizon_decide`:
`scores[h] += self.weights.get(h, 0.0) * conf * side_factor`. -/
def tally_vote (w : Scores) (s : Scores) (v : Vote) : Scores :=
  match horizon_map v.agent with
  | none => s
  | some h => s.bump h (w.get h * v.confidence * side_factor v.decision)

/-- The scoring loop of `horizon_decide` over the whole vote list. -/
def compute_scores (w : Scores) (votes : List Vote) : Scores :=
  votes.foldl (tally_vote w) ⟨0, 0, 0⟩

/-- Python `max(scores.items(), key=...)`: first maximal key in insertion order
(short, mid, long); a later key replaces only on a strictly larger score. -/
def best_horizon (s : Scores) : Horizon :=
  let b1 : Horizon := if s.short < s.mid then .mid else .short
  if s.get b1 < s.long then .long else b1

/-- Python `min(scores.items(), key=...)`: first minimal key in insertion order. -/
def worst_horizon (s : Scores) : Horizon :=
  let w1 : Horizon := if s.mid < s.short then .mid else .short
  if s.long < s.get w1 then .long else w1

/-- Python `round(x, 3)`: round half to even at three decimal places. -/
def round3 (x : ℚ) : ℚ :=
  let y := x * 1000
  let n := ⌊y⌋
  let f := y - n
  let r : ℤ :=
    if f < 1/2 then n
    else if 1/2 < f then n + 1
    else if 2 ∣ n then n else n + 1
  (r : ℚ) / 1000

/-- The dict returned by `horizon_decide`. -/
structure Decision where
  action : Side
  target_horizon : Option Horizon
  confidence : ℚ
  scores : Scores
deriving DecidableEq, Repr

/-- The method `Debate.horizon_decide`, line for line: score the votes, compute the
net score and the strongest/weakest horizon, then branch — the two
net-score checks come first, then the per-horizon fallbacks. -/
def horizon_decide (d : Debate) (votes : List Vote) : Decision :=
  let s := compute_scores d.weights votes
  let net_score := s.short + s.mid + s.long
  let best_h := best_horizon s
  let best_score := s.get best_h
  let worst_h := worst_horizon s
  let worst_score := s.get worst_h
  if d.enter_th ≤ net_score then
    ⟨.BUY, some best_h, round3 net_score, s⟩
  else if net_score ≤ -d.exit_th then
    ⟨.SELL, some worst_h, round3 |net_score|, s⟩
  else if d.enter_th ≤ best_score then
    ⟨.BUY, some best_h, round3 best_score, s⟩
  else if d.exit_th ≤ |worst_score| then
    ⟨.SELL, some worst_h, round3 |worst_score|, s⟩
  else
    ⟨.HOLD, none, round3 (max |best_score| |worst_score|), s⟩

/-! ## Position ledger (`core/positions.py`) -/

/-- Python `str.upper()`, modelled character-wise. -/
def upperStr (s : String) : String := ⟨s.data.map Char.toUpper⟩

/-- A row of the position ledger (a value of `positions.json`).  Fields
the code reads defensively with `.get`/`or` are `Option`-valued;
timestamps are integers. -/
structure Pos where
  symbol : String
  horizon : Option Horizon
  qty : ℚ
  entry_price : ℚ
  notional : ℚ
  entered_at : Option ℤ
  timebox_until : Option ℤ
deriving DecidableEq, Repr

/-- The ledger object: symbol → row, as an association list (a JSON
object with at most one binding per key). -/
abbrev Ledger := List (String × Pos)

/-- Python `ledger.pop(sym, None)`: remove the binding for `sym`. -/
def Ledger.pop (l : Ledger) (s : String) : Ledger :=
  l.filter (fun p => p.1 ≠ s)

/-- Python `ledger[sym] = row`: overwrite in place if the key exists, else
append (Python dict assignment). -/
def Ledger.insert (l : Ledger) (s : String) (p : Pos) : Ledger :=
  if (List.lookup s l).isSome then
    l.map (fun q => if q.1 = s then (s, p) else q)
  else
    l ++ [(s, p)]

/-- The table `HORIZON_TIMEBOX`, in days: short = 1, mid = 7, long = 60. -/
def HORIZON_TIMEBOX : Horizon → ℤ
  | .short => 1
  | .mid => 7
  | .long => 60

/-- The function `set_timebox_on_entry`: create a fresh ledger row for the first entry
of a symbol, with `timebox_until = now + HORIZON_TIMEBOX[horizon]` and
`entered_at = now`. -/
def set_timebox_on_entry (ledger : Ledger) (now : ℤ) (symbol : String)
    (horizon : Horizon) (qty entry_price notional : ℚ) : Ledger :=
  let sym := upperStr symbol
  ledger.insert sym
    ⟨sym, some horizon, qty, entry_price, notional, some now,
      some (now + HORIZON_TIMEBOX horizon)⟩

/-- The function `merge_entry`: add to an existing position (or create a bare row).
The entry price divides by `max(row["qty"], 1e-9)`, the code's guard
against a zero denominator; `row.get("horizon") or horizon` and
`row.get("entered_at") or _now_iso()` keep an existing value; under
`reset_timebox` the code still writes back the existing
`timebox_until`. -/
def merge_entry (ledger : Ledger) (now : ℤ) (symbol : String) (horizon : Horizon)
    (add_qty add_price add_notional : ℚ) (reset_timebox : Bool) : Ledger :=
  let sym := upperStr symbol
  match List.lookup sym ledger with
  | some row =>
    let qty := row.qty + add_qty
    let notional := row.notional + add_notional
    let row' : Pos :=
      { row with
        qty := qty
        notional := notional
        entry_price := notional / max qty (1/1000000000)
        horizon := (match row.horizon with | some h => some h | none => some horizon)
        entered_at := (match row.entered_at with | some t => some t | none => some now)
        timebox_until := if reset_timebox then row.timebox_until else row.timebox_until }
    ledger.insert sym row'
  | none =>
    ledger.insert sym ⟨sym, some horizon, add_qty, add_price, add_notional, some now, none⟩

/-! ## Timebox enforcement and the SELL branch (`autonomous_runner.py`) -/

/-- The run-log records the claims are about. -/
inductive RunRecord where
  | forced_exit (symbol : String) (order_id : Option String)
  | forced_exit_failed (symbol : String) (error : String)
  | sell (symbol : String) (order_id : Option String)
  | sell_failed (symbol : String) (error : String)
  | sell_no_position (symbol : String)
deriving DecidableEq, Repr

def RunRecord.symbol : RunRecord → String
  | .forced_exit s _ => s
  | .forced_exit_failed s _ => s
  | .sell s _ => s
  | .sell_failed s _ => s
  | .sell_no_position s => s

/-- One `trader.close_position` call as its caller sees it: `.ok oid`
means the order was submitted (the id may be `None`), `.error e` means
the call raised with message `e`. -/
abbrev CloseResult := Except String (Option String)

/-- The expiry test of `enforce_timeboxes`: `now >= until`; a row with a
missing or unparsable `timebox_until` is skipped (`continue`). -/
def expiredQ (now : ℤ) (p : Pos) : Bool :=
  match p.timebox_until with
  | some t => t ≤ now
  | none => false

/-- The record appended for one expired entry: `FORCED_EXIT` with the
order id when `close_position` returned, `FORCED_EXIT_FAILED` carrying
the error when it raised. -/
def exit_record (close : String → CloseResult) (s : String) : RunRecord :=
  match close s with
  | .ok oid => RunRecord.forced_exit s oid
  | .error e => RunRecord.forced_exit_failed s e

/-- The function `enforce_timeboxes`: walk the ledger; each expired row triggers one
`close_position` call and its `exit_record`, and is popped from the
ledger whether or not the call raised.  Returns the written ledger and
the appended records in iteration order. -/
def enforce_timeboxes (close : String → CloseResult) (now : ℤ) :
    Ledger → Ledger × List RunRecord
  | [] => ([], [])
  | (s, p) :: rest =>
    let r := enforce_timeboxes close now rest
    if expiredQ now p then
      (r.1, exit_record close s :: r.2)
    else
      ((s, p) :: r.1, r.2)

/-- Step 4 of `run_once` (the SELL branch): if either the ledger or the
broker shows a positive quantity, call `close_position`; on success pop
the symbol and record `SELL`, on an exception record `SELL_FAILED` and
leave the ledger untouched; otherwise record `SELL_NO_POSITION`. -/
def run_once_sell (close : CloseResult) (sym : String)
    (held_qty_ledger held_qty_broker : ℚ) (ledger : Ledger) :
    Ledger × RunRecord :=
  if 0 < held_qty_ledger ∨ 0 < held_qty_broker then
    match close with
    | .ok oid =>
      ((if (List.lookup sym ledger).isSome then ledger.pop sym else ledger),
        RunRecord.sell sym oid)
    | .error e => (ledger, RunRecord.sell_failed sym e)
  else
    (ledger, RunRecord.sell_no_position sym)

/-! ## Risk policy and the BUY branch -/

/-- Configuration of the risk policy caps. -/
structure RiskConfig where
  cash_floor_pct : ℚ
  per_symbol_cap_pct : ℚ
  horizon_cap_pct : Scores
  max_shares_per_buy : ℚ
  max_shares_per_symbol : ℚ

/-- Modelled from the spec: `compute_allowed_notional` is imported by
`autonomous_runner.py` from `core.policy` but its definition is absent
from the sources.  The spec gives
`allowed = min(cash − cash_floor_pct*equity, horizon_cap_pct[horizon]*equity,
per_symbol_cap_pct*equity − held_notional_for_symbol)`, floored at 0. -/
def compute_allowed_notional (cfg : RiskConfig) (horizon : Horizon)
    (cash equity held_notional : ℚ) : ℚ :=
  max 0 (min (cash - cfg.cash_floor_pct * equity)
    (min (cfg.horizon_cap_pct.get horizon * equity)
      (cfg.per_symbol_cap_pct * equity - held_notional)))

/-- Modelled from the spec: `clamp_qty_by_share_caps` is imported from
`core.policy` but absent from the sources; the spec clamps the desired
quantity by `max_shares_per_buy` and by `max_shares_per_symbol` minus the
currently held quantity, floored at 0. -/
def clamp_qty_by_share_caps (cfg : RiskConfig) (qty held_qty : ℚ) : ℚ :=
  max 0 (min qty (min cfg.max_shares_per_buy (cfg.max_shares_per_symbol - held_qty)))

/-- Outcome of the BUY branch of `run_once` up to order submission. -/
inductive BuyOutcome where
  | suggest_buy (reason : String)
  | buy (qty : ℚ)
deriving DecidableEq, Repr

/-- Step 5 of `run_once` (the BUY branch) up to order submission: the
guards in source order — invalid horizon, no workable price, daily buy
limit, cooldown, notional caps, share caps — each short-circuiting to a
`SUGGEST_BUY` with the blocking reason.  The two throttle checks are
oracles (their code is not in the sources). -/
def run_once_buy (cfg : RiskConfig) (horizon : Option Horizon) (last : ℚ)
    (daily_limit_hit cooldown_hit : Bool)
    (cash equity symbol_mv held_qty_ledger : ℚ) : BuyOutcome :=
  match horizon with
  | none => .suggest_buy "blocked: missing/invalid target_horizon"
  | some h =>
    if last ≤ 0 then .suggest_buy "blocked: no price"
    else if daily_limit_hit then .suggest_buy "blocked: daily buy limit"
    else if cooldown_hit then .suggest_buy "blocked: cooldown"
    else
      let notional_allowed := compute_allowed_notional cfg h cash equity symbol_mv
      if notional_allowed ≤ 0 then .suggest_buy "blocked: cash/exposure caps"
      else
        let desired_qty := clamp_qty_by_share_caps cfg (notional_allowed / last) held_qty_ledger
        if desired_qty ≤ 0 then .suggest_buy "blocked: share cap reached"
        else .buy desired_qty

/-! ## Startup reconciliation (`run_scheduler.py`) and ledger reads -/

/-- Drop the first `/` of a character list, if any. -/
def dropFirstSlash : List Char → List Char
  | [] => []
  | c :: cs => if c = '/' then cs else c :: dropFirstSlash cs

/-- The helper `_to_broker_symbol` (`core/trader.py`): upper-case, strip spaces, and
join `BASE/QUOTE` into `BASEQUOTE` — i.e. remove the first slash. -/
def to_broker_symbol (sym : String) : String :=
  ⟨dropFirstSlash ((sym.data.map Char.toUpper).filter (fun c => c ≠ ' '))⟩

/-- The broker dict `{p["symbol"]: float(p["qty"])}` read with
`.get(key, 0.0)`; a later duplicate key overwrites an earlier one. -/
def broker_qty (positions : List (String × ℚ)) (s : String) : ℚ :=
  (List.lookup s positions.reverse).getD 0

/-- The function `reconcile_ledger_with_broker`: drop every ledger entry whose
broker-reported quantity for the translated symbol is `<= 0.0`. -/
def reconcile_ledger_with_broker (positions : List (String × ℚ)) (ledger : Ledger) : Ledger :=
  ledger.filter (fun p => decide (0 < broker_qty positions (to_broker_symbol p.1)))

/-- The function `read_ledger` (`core/positions.py`): the backing file is `none` when
missing, otherwise its contents; JSON parsing is an arbitrary function
that may fail; the missing-file case returns `{}` and the
`try/except` around `json.load` turns any parse failure into `{}`. -/
def read_ledger (file : Option String) (parse : String → Except String Ledger) : Ledger :=
  match file with
  | none => []
  | some s =>
    match parse s with
    | .ok data => data
    | .error _ => []

/-- Rounding with `round3` is the identity on exact multiples of `1/1000`. -/
theorem round3_intDiv (n : ℤ) : round3 ((n : ℚ) / 1000) = (n : ℚ) / 1000 := by
  have hy : ((n : ℚ) / 1000) * 1000 = (n : ℚ) := by ring
  simp only [round3, hy, Int.floor_intCast]
  norm_num

/-- Rounding zero gives zero. -/
theorem round3_zero : round3 0 = 0 := by
  norm_num [round3]

/-! ## Spec scenarios (section 8 of the spec) -/

/-- Scenario A/B configuration: `enter_th = .5`, `exit_th = .45`,
default weights. -/
def debateA : Debate := ⟨50/100, 45/100, default_weights⟩

/-- Scenario A opinions: short BUY .9, mid BUY .8, long HOLD. -/
def votesA : List Vote :=
  [⟨"ShortTerm", .BUY, 90/100⟩, ⟨"MidTerm", .BUY, 80/100⟩, ⟨"LongTerm", .HOLD, 50/100⟩]

/-- Scenario B opinions: short SELL .9, mid SELL .9, long BUY .1. -/
def votesB : List Vote :=
  [⟨"ShortTerm", .SELL, 90/100⟩, ⟨"MidTerm", .SELL, 90/100⟩, ⟨"LongTerm", .BUY, 10/100⟩]

/-- Scenario C configuration: `enter_th = .35`, same weights. -/
def debateC : Debate := ⟨35/100, 45/100, default_weights⟩

/-- Scenario C opinions: all three horizons BUY at confidence 1.0. -/
def votesC : List Vote :=
  [⟨"ShortTerm", .BUY, 1⟩, ⟨"MidTerm", .BUY, 1⟩, ⟨"LongTerm", .BUY, 1⟩]

/-- A configuration with a high entry and a low exit threshold
(`enter_th = .9`, `exit_th = .1`). -/
def debateN : Debate := ⟨90/100, 10/100, default_weights⟩

/-- Opinions where every horizon votes BUY and every weighted score
equals `0.1`. -/
def votesN : List Vote :=
  [⟨"ShortTerm", .BUY, 25/100⟩, ⟨"MidTerm", .BUY, 2/7⟩, ⟨"LongTerm", .BUY, 40/100⟩]

/-- The ordered decision rule exactly as the claim states it (spec
section 4.1, steps 2–4): BUY when the best score reaches
`enter_threshold`, else SELL when the worst score is strictly negative
and its magnitude reaches `exit_threshold`, else HOLD. -/
def spec_rule (enter_th exit_th : ℚ) (s : Scores) : Side :=
  if enter_th ≤ s.get (best_horizon s) then .BUY
  else if s.get (worst_horizon s) < 0 ∧ exit_th ≤ |s.get (worst_horizon s)| then .SELL
  else .HOLD

/-- The rule the code actually applies, stated on the computed scores:
two aggregate net-score checks come first (BUY on `net ≥ enter_th` with
the argmax horizon and confidence `round(net, 3)`; SELL on
`net ≤ −exit_th` with the argmin horizon and confidence
`round(|net|, 3)`), then the per-horizon BUY check, then a SELL check on
`|worst_score|` alone (no negativity requirement), then HOLD. -/
def amended_rule (enter_th exit_th : ℚ) (s : Scores) : Decision :=
  let net := s.short + s.mid + s.long
  let best := s.get (best_horizon s)
  let worst := s.get (worst_horizon s)
  if enter_th ≤ net then ⟨.BUY, some (best_horizon s), round3 net, s⟩
  else if net ≤ -exit_th then ⟨.SELL, some (worst_horizon s), round3 |net|, s⟩
  else if enter_th ≤ best then ⟨.BUY, some (best_horizon s), round3 best, s⟩
  else if exit_th ≤ |worst| then ⟨.SELL, some (worst_horizon s), round3 |worst|, s⟩
  else ⟨.HOLD, none, round3 (max |best| |worst|), s⟩

/-- Python `net_score = sum(scores.values())` in `horizon_decide`. -/
def net_score (s : Scores) : ℚ := s.short + s.mid + s.long

/-! ## Helper lemmas -/

theorem Scores.bump_zero (s : Scores) (h : Horizon) : s.bump h 0 = s := by
  cases h <;> simp [Scores.bump]

theorem tally_vote_hold (w s : Scores) (v : Vote) (hv : v.decision = Side.HOLD) :
    tally_vote w s v = s := by
  unfold tally_vote
  cases hm : horizon_map v.agent with
  | none => rfl
  | some h => simp [hv, side_factor, Scores.bump_zero]

theorem compute_scores_all_hold (w : Scores) :
    ∀ votes : List Vote, (∀ v ∈ votes, v.decision = Side.HOLD) →
      compute_scores w votes = ⟨0, 0, 0⟩
  | [], _ => rfl
  | v :: vs, hv => by
    have hd : v.decision = Side.HOLD := hv v (by simp)
    have ht : ∀ u ∈ vs, u.decision = Side.HOLD := fun u hu => hv u (by simp [hu])
    have ih := compute_scores_all_hold w vs ht
    unfold compute_scores at ih ⊢
    rw [List.foldl_cons, tally_vote_hold w _ v hd]
    exact ih

/-! ## Claim theorems -/

/-- C8: `decide` applied to an empty opinion list, and to a list in
which every opinion's side is HOLD, returns action HOLD with confidence
0 and every horizon score 0 (for positive thresholds; the empty list is
the vacuous case of the all-HOLD hypothesis). -/
theorem claim_C8_all_hold (d : Debate) (henter : 0 < d.enter_th) (hexit : 0 < d.exit_th)
    (votes : List Vote) (hv : ∀ v ∈ votes, v.decision = Side.HOLD) :
    horizon_decide d votes = ⟨Side.HOLD, none, 0, ⟨0, 0, 0⟩⟩ := by
  have hs := compute_scores_all_hold d.weights votes hv
  have h1 : ¬ d.enter_th ≤ (0 : ℚ) := not_le.mpr henter
  have h2 : ¬ d.exit_th ≤ (0 : ℚ) := not_le.mpr hexit
  simp only [horizon_decide, hs]
  norm_num [best_horizon, worst_horizon, Scores.get, round3_zero, h1, h2, neg_nonneg]

theorem claim_C8_all_hold_witness :
    (0 : ℚ) < 60/100 ∧ (0 : ℚ) < 45/100 ∧
    horizon_decide ⟨60/100, 45/100, default_weights⟩ [] =
      ⟨Side.HOLD, none, 0, ⟨0, 0, 0⟩⟩ :=
  ⟨by norm_num, by norm_num,
    claim_C8_all_hold ⟨60/100, 45/100, default_weights⟩ (by norm_num) (by norm_num) []
      (by simp)⟩

/-- C1 (counterexample): on Scenario A — weights {.4, .35, .25},
`enter_th = .5`, `exit_th = .45`, opinions [short BUY .9, mid BUY .8,
long HOLD] — the code returns BUY (the net score .64 crosses the entry
threshold), whereas the claim's ordered rule returns HOLD there. -/
theorem claim_C1_counterexample :
    (horizon_decide debateA votesA).action = Side.BUY ∧
    spec_rule debateA.enter_th debateA.exit_th (compute_scores debateA.weights votesA) =
      Side.HOLD ∧
    Side.BUY ≠ Side.HOLD := by
  have hs : compute_scores debateA.weights votesA = ⟨36/100, 28/100, 0⟩ := by
    norm_num [compute_scores, votesA, debateA, tally_vote, horizon_map, Scores.bump,
      Scores.get, default_weights, side_factor]
  refine ⟨?_, ?_, by simp⟩
  · have hr := round3_intDiv 640
    norm_num at hr
    simp only [horizon_decide, hs]
    norm_num [debateA, best_horizon, worst_horizon, Scores.get, hr]
  · simp only [hs, spec_rule]
    norm_num [debateA, best_horizon, worst_horizon, Scores.get]

/-- C1 (amended): `decide` selects the action by the ordered rule with
first match winning, but two aggregate net-score checks precede the
per-horizon rule: BUY with the argmax horizon and confidence
`round(net, 3)` when `net_score ≥ enter_threshold`; SELL with the argmin
horizon and confidence `round(|net|, 3)` when `net_score ≤
−exit_threshold`; then BUY on `best_score ≥ enter_threshold`; then SELL
on `|worst_score| ≥ exit_threshold`; else HOLD.  Under this rule
Scenario A returns BUY with confidence .64, and Scenario C returns BUY
with horizon short and confidence 1.0 (the net score), not .40. -/
theorem claim_C1_amended :
    (∀ (d : Debate) (votes : List Vote),
        horizon_decide d votes =
          amended_rule d.enter_th d.exit_th (compute_scores d.weights votes)) ∧
    horizon_decide debateA votesA =
      ⟨Side.BUY, some Horizon.short, 64/100, ⟨36/100, 28/100, 0⟩⟩ ∧
    horizon_decide debateC votesC =
      ⟨Side.BUY, some Horizon.short, 1, ⟨40/100, 35/100, 25/100⟩⟩ := by
  refine ⟨fun d votes => rfl, ?_, ?_⟩
  · have hs : compute_scores debateA.weights votesA = ⟨36/100, 28/100, 0⟩ := by
      norm_num [compute_scores, votesA, debateA, tally_vote, horizon_map, Scores.bump,
        Scores.get, default_weights, side_factor]
    have hr := round3_intDiv 640
    norm_num at hr
    simp only [horizon_decide, hs]
    norm_num [debateA, best_horizon, worst_horizon, Scores.get, hr]
  · have hs : compute_scores debateC.weights votesC = ⟨40/100, 35/100, 25/100⟩ := by
      norm_num [compute_scores, votesC, debateC, tally_vote, horizon_map, Scores.bump,
        Scores.get, default_weights, side_factor]
    have hr := round3_intDiv 1000
    norm_num at hr
    simp only [horizon_decide, hs]
    norm_num [debateC, best_horizon, worst_horizon, Scores.get, hr]

/-- C5 (counterexample): on Scenario B — `enter_th = .5`,
`exit_th = .45`, opinions [short SELL .9, mid SELL .9, long BUY .1] —
the code returns SELL (the net score −.65 crosses the exit threshold),
not HOLD as the claim states; and with `enter_th = .9`, `exit_th = .1`
and every signed score equal to +0.1, `decide` returns SELL although no
score is negative. -/
theorem claim_C5_counterexample :
    (horizon_decide debateA votesB).action = Side.SELL ∧
    Side.SELL ≠ Side.HOLD ∧
    compute_scores debateN.weights votesN = ⟨1/10, 1/10, 1/10⟩ ∧
    (horizon_decide debateN votesN).action = Side.SELL := by
  have hsB : compute_scores debateA.weights votesB = ⟨-(36/100), -(63/200), 1/40⟩ := by
    norm_num [compute_scores, votesB, debateA, tally_vote, horizon_map, Scores.bump,
      Scores.get, default_weights, side_factor]
  have hsN : compute_scores debateN.weights votesN = ⟨1/10, 1/10, 1/10⟩ := by
    norm_num [compute_scores, votesN, debateN, tally_vote, horizon_map, Scores.bump,
      Scores.get, default_weights, side_factor]
  refine ⟨?_, by simp, hsN, ?_⟩
  · simp only [horizon_decide, hsB]
    norm_num [debateA, best_horizon, worst_horizon, Scores.get]
  · simp only [horizon_decide, hsN]
    norm_num [debateN, best_horizon, worst_horizon, Scores.get, abs_of_nonneg]

/-- C5 (amended): `decide` returns SELL in exactly two cases, tried in
order after the aggregate BUY check fails: when the net score is at most
`−exit_threshold` (then the horizon is the argmin and the confidence is
`round(|net|, 3)`), or else, when the per-horizon BUY check also fails,
when `|worst_score| ≥ exit_threshold` — regardless of the sign of
`worst_score`, so SELL can fire with every signed score non-negative —
with confidence `round(|worst_score|, 3)`.  Scenario B yields SELL with
confidence .65. -/
theorem claim_C5_amended :
    (∀ (d : Debate) (votes : List Vote),
      ((horizon_decide d votes).action = Side.SELL ↔
        (¬ d.enter_th ≤ net_score (compute_scores d.weights votes) ∧
          net_score (compute_scores d.weights votes) ≤ -d.exit_th) ∨
        (¬ d.enter_th ≤ net_score (compute_scores d.weights votes) ∧
          ¬ net_score (compute_scores d.weights votes) ≤ -d.exit_th ∧
          ¬ d.enter_th ≤ (compute_scores d.weights votes).get
            (best_horizon (compute_scores d.weights votes)) ∧
          d.exit_th ≤ |(compute_scores d.weights votes).get
            (worst_horizon (compute_scores d.weights votes))|)) ∧
      (¬ d.enter_th ≤ net_score (compute_scores d.weights votes) →
        net_score (compute_scores d.weights votes) ≤ -d.exit_th →
        horizon_decide d votes =
          ⟨Side.SELL, some (worst_horizon (compute_scores d.weights votes)),
            round3 |net_score (compute_scores d.weights votes)|,
            compute_scores d.weights votes⟩) ∧
      (¬ d.enter_th ≤ net_score (compute_scores d.weights votes) →
        ¬ net_score (compute_scores d.weights votes) ≤ -d.exit_th →
        ¬ d.enter_th ≤ (compute_scores d.weights votes).get
          (best_horizon (compute_scores d.weights votes)) →
        d.exit_th ≤ |(compute_scores d.weights votes).get
          (worst_horizon (compute_scores d.weights votes))| →
        horizon_decide d votes =
          ⟨Side.SELL, some (worst_horizon (compute_scores d.weights votes)),
            round3 |(compute_scores d.weights votes).get
              (worst_horizon (compute_scores d.weights votes))|,
            compute_scores d.weights votes⟩)) ∧
    horizon_decide debateA votesB =
      ⟨Side.SELL, some Horizon.short, 65/100, ⟨-(36/100), -(63/200), 1/40⟩⟩ := by
  constructor
  · intro d votes
    simp only [horizon_decide, net_score]
    split_ifs with h1 h2 h3 h4 <;> refine ⟨?_, ?_, ?_⟩ <;> simp_all
  · have hsB : compute_scores debateA.weights votesB = ⟨-(36/100), -(63/200), 1/40⟩ := by
      norm_num [compute_scores, votesB, debateA, tally_vote, horizon_map, Scores.bump,
        Scores.get, default_weights, side_factor]
    have hr := round3_intDiv 650
    norm_num at hr
    simp only [horizon_decide, hsB]
    norm_num [debateA, best_horizon, worst_horizon, Scores.get, hr, abs_of_nonneg]

theorem claim_C5_amended_witness :
    horizon_decide debateA votesB =
      ⟨Side.SELL, some (worst_horizon (compute_scores debateA.weights votesB)),
        round3 |net_score (compute_scores debateA.weights votesB)|,
        compute_scores debateA.weights votesB⟩ := by
  have hsB : compute_scores debateA.weights votesB = ⟨-(36/100), -(63/200), 1/40⟩ := by
    norm_num [compute_scores, votesB, debateA, tally_vote, horizon_map, Scores.bump,
      Scores.get, default_weights, side_factor]
  exact (claim_C5_amended.1 debateA votesB).2.1
    (by rw [hsB]; norm_num [net_score, debateA])
    (by rw [hsB]; norm_num [net_score, debateA])

/-- Scenario D risk configuration: `cash_floor_pct = .4`,
`per_symbol_cap_pct = .07`, `horizon_cap_pct[short] = .03`. -/
def riskD : RiskConfig := ⟨40/100, 7/100, ⟨3/100, 3/100, 3/100⟩, 100, 100⟩

/-- C2: the BUY sizing equals the three-way minimum floored at 0, and a
result of 0 makes the BUY branch stop at the notional-caps gate with a
`SUGGEST_BUY` (not an error), for any inputs that reach that gate
(valid horizon, positive price, no throttle hit). -/
theorem claim_C2_buy_sizing :
    ∀ (cfg : RiskConfig) (h : Horizon) (cash equity held_notional last held_qty : ℚ)
      (daily cooldown : Bool),
      compute_allowed_notional cfg h cash equity held_notional =
        max 0 (min (cash - cfg.cash_floor_pct * equity)
          (min (cfg.horizon_cap_pct.get h * equity)
            (cfg.per_symbol_cap_pct * equity - held_notional))) ∧
      (¬ last ≤ 0 → daily = false → cooldown = false →
        compute_allowed_notional cfg h cash equity held_notional = 0 →
        run_once_buy cfg (some h) last daily cooldown cash equity held_notional held_qty =
          BuyOutcome.suggest_buy "blocked: cash/exposure caps") := by
  intro cfg h cash equity held_notional last held_qty daily cooldown
  refine ⟨rfl, fun hlast hd hc h0 => ?_⟩
  simp [run_once_buy, hlast, hd, hc, h0]

/-- C2 (witness, Scenario D): cash 1000, equity 10000 ⇒ allowed notional
0 and the BUY is blocked at the caps gate. -/
theorem claim_C2_buy_sizing_witness :
    ¬ (100 : ℚ) ≤ 0 ∧
    compute_allowed_notional riskD Horizon.short 1000 10000 0 = 0 ∧
    run_once_buy riskD (some Horizon.short) 100 false false 1000 10000 0 0 =
      BuyOutcome.suggest_buy "blocked: cash/exposure caps" := by
  have h0 : compute_allowed_notional riskD Horizon.short 1000 10000 0 = 0 := by
    norm_num [compute_allowed_notional, riskD, Scores.get, min_def, max_def]
  exact ⟨by norm_num, h0,
    (claim_C2_buy_sizing riskD Horizon.short 1000 10000 0 100 0 false false).2
      (by norm_num) rfl rfl h0⟩

/-! ## Timebox sweep lemmas -/

theorem exit_record_symbol (close : String → CloseResult) (s : String) :
    (exit_record close s).symbol = s := by
  unfold exit_record
  cases close s <;> rfl

theorem enforce_timeboxes_fst (close : String → CloseResult) (now : ℤ) :
    ∀ l : Ledger,
      (enforce_timeboxes close now l).1 = l.filter (fun p => !expiredQ now p.2)
  | [] => rfl
  | (s, p) :: rest => by
    have ih := enforce_timeboxes_fst close now rest
    cases hp : expiredQ now p <;>
      simp [enforce_timeboxes, hp, ih, List.filter_cons]

theorem enforce_timeboxes_snd (close : String → CloseResult) (now : ℤ) :
    ∀ l : Ledger,
      (enforce_timeboxes close now l).2 =
        (l.filter (fun p => expiredQ now p.2)).map (fun p => exit_record close p.1)
  | [] => rfl
  | (s, p) :: rest => by
    have ih := enforce_timeboxes_snd close now rest
    cases hp : expiredQ now p <;>
      simp [enforce_timeboxes, hp, ih, List.filter_cons]

/-- Distinct dict keys determine the value: an association list with
nodup keys binds each key to at most one row. -/
theorem keys_unique (l : Ledger) (hnd : (l.map Prod.fst).Nodup)
    {s : String} {p q : Pos} (hp : (s, p) ∈ l) (hq : (s, q) ∈ l) : p = q := by
  induction l with
  | nil => simp at hp
  | cons a rest ih =>
    simp only [List.map_cons, List.nodup_cons] at hnd
    rcases List.mem_cons.mp hp with hp1 | hp1 <;> rcases List.mem_cons.mp hq with hq1 | hq1
    · exact congrArg Prod.snd (hp1.trans hq1.symm)
    · exact absurd (hp1 ▸ (List.mem_map_of_mem Prod.fst hq1 : (s, q).1 ∈ rest.map Prod.fst))
        hnd.1
    · exact absurd (hq1 ▸ (List.mem_map_of_mem Prod.fst hp1 : (s, p).1 ∈ rest.map Prod.fst))
        hnd.1
    · exact ih hnd.2 hp1 hq1

theorem countP_key_filter_expired (now : ℤ) (s : String) (p : Pos) :
    ∀ l : Ledger, (l.map Prod.fst).Nodup → (s, p) ∈ l → expiredQ now p = true →
      (l.filter (fun a => expiredQ now a.2)).countP (fun a => decide (a.1 = s)) = 1 := by
  intro l
  induction l with
  | nil => intro _ h; simp at h
  | cons a rest ih =>
    intro hnd hmem hexp
    simp only [List.map_cons, List.nodup_cons] at hnd
    rcases List.mem_cons.mp hmem with h1 | h1
    · have h0 : (rest.filter (fun a => expiredQ now a.2)).countP
          (fun a => decide (a.1 = s)) = 0 := by
        rw [List.countP_eq_zero]
        intro x hx
        have hx' : x ∈ rest := List.mem_of_mem_filter hx
        intro hxs
        apply hnd.1
        have : x.1 ∈ rest.map Prod.fst := List.mem_map_of_mem Prod.fst hx'
        simp only [← h1]
        simpa [of_decide_eq_true hxs] using this
      rw [← h1]
      simp [List.filter_cons, hexp, List.countP_cons, h0, ← h1]
    · have hs : s ∈ rest.map Prod.fst := by
        exact (List.mem_map).mpr ⟨(s, p), h1, rfl⟩
      have hne : ¬ a.1 = s := fun he => hnd.1 (he ▸ hs)
      cases ha : expiredQ now a.2 <;>
        simp [List.filter_cons, ha, List.countP_cons, hne, ih hnd.2 h1 hexp]

/-- An expired test position (timebox at 5). -/
def posExp : Pos := ⟨"AAPL", some Horizon.short, 1, 10, 10, some 0, some 5⟩

/-- A live test position (timebox at 99). -/
def posLive : Pos := ⟨"MSFT", some Horizon.mid, 2, 20, 40, some 0, some 99⟩

/-- An order-submission oracle that always succeeds. -/
def closeOK : String → CloseResult := fun _ => .ok (some "order-1")

/-- An order-submission oracle that always raises. -/
def closeFail : String → CloseResult := fun _ => .error "network down"

/-- C4: the timebox sweep removes exactly the positions whose
`timebox_until` is at or before `now` (never one strictly in the
future), triggers exactly one exit per expired position, triggers exits
only for expired positions, and re-sweeping its output at the same
instant removes nothing and triggers nothing. -/
theorem claim_C4_sweep (close : String → CloseResult) (now : ℤ) (ledger : Ledger)
    (hnd : (ledger.map Prod.fst).Nodup) :
    (∀ (s : String) (p : Pos),
      ((s, p) ∈ (enforce_timeboxes close now ledger).1 ↔
        (s, p) ∈ ledger ∧ expiredQ now p = false)) ∧
    (∀ (s : String) (p : Pos), (s, p) ∈ ledger → expiredQ now p = true →
      (enforce_timeboxes close now ledger).2.countP (fun r => r.symbol = s) = 1) ∧
    (∀ r ∈ (enforce_timeboxes close now ledger).2,
      ∃ p, (r.symbol, p) ∈ ledger ∧ expiredQ now p = true) ∧
    enforce_timeboxes close now (enforce_timeboxes close now ledger).1 =
      ((enforce_timeboxes close now ledger).1, ([] : List RunRecord)) := by
  refine ⟨?_, ?_, ?_, ?_⟩
  · intro s p
    rw [enforce_timeboxes_fst]
    simp [List.mem_filter]
  · intro s p hmem hexp
    rw [enforce_timeboxes_snd, List.countP_map]
    have hfun : ((fun r => decide (RunRecord.symbol r = s)) ∘ fun p => exit_record close p.1)
        = fun a : String × Pos => decide (a.1 = s) := by
      funext a
      simp [exit_record_symbol]
    rw [hfun]
    exact countP_key_filter_expired now s p ledger hnd hmem hexp
  · intro r hr
    rw [enforce_timeboxes_snd] at hr
    rcases List.mem_map.mp hr with ⟨a, ha, hfa⟩
    rcases List.mem_filter.mp ha with ⟨hmem, hexp⟩
    refine ⟨a.2, ?_, hexp⟩
    rw [← hfa, exit_record_symbol]
    exact hmem
  · have h1 := enforce_timeboxes_fst close now ledger
    refine Prod.ext ?_ ?_
    · rw [enforce_timeboxes_fst, h1, List.filter_filter]
      simp
    · rw [enforce_timeboxes_snd, h1, List.filter_filter]
      simp

/-- C4 (witness): a two-row ledger with one expired position at `now =
10`: the sweep keeps exactly the live row and logs exactly one exit for
the expired symbol. -/
theorem claim_C4_sweep_witness :
    ((([("AAPL", posExp), ("MSFT", posLive)] : Ledger).map Prod.fst).Nodup) ∧
    ((("MSFT", posLive) ∈
        (enforce_timeboxes closeOK 10 [("AAPL", posExp), ("MSFT", posLive)]).1) ∧
      ¬ (("AAPL", posExp) ∈
        (enforce_timeboxes closeOK 10 [("AAPL", posExp), ("MSFT", posLive)]).1)) ∧
    (enforce_timeboxes closeOK 10 [("AAPL", posExp), ("MSFT", posLive)]).2.countP
      (fun r => r.symbol = "AAPL") = 1 := by
  have hnd : (([("AAPL", posExp), ("MSFT", posLive)] : Ledger).map Prod.fst).Nodup := by
    simp [posExp, posLive]
  have h := claim_C4_sweep closeOK 10 [("AAPL", posExp), ("MSFT", posLive)] hnd
  refine ⟨hnd, ⟨?_, ?_⟩, h.2.1 "AAPL" posExp (by simp) (by decide)⟩
  · exact (h.1 "MSFT" posLive).mpr ⟨by simp, by decide⟩
  · intro hmem
    have := ((h.1 "AAPL" posExp).mp hmem).2
    rw [show expiredQ 10 posExp = true from by decide] at this
    cases this

/-- C3 (counterexample): a forced timebox exit whose order submission
raises still removes the symbol from the ledger — the entry is not left
unchanged, contradicting the claim for the timebox-exit path (the
`FORCED_EXIT_FAILED` record with the error is emitted). -/
theorem claim_C3_counterexample :
    enforce_timeboxes closeFail 10 [("AAPL", posExp)] =
      ([], [RunRecord.forced_exit_failed "AAPL" "network down"]) ∧
    ([] : Ledger) ≠ [("AAPL", posExp)] := by
  constructor
  · simp [enforce_timeboxes, expiredQ, posExp, closeFail, exit_record]
  · simp

/-- C3 (amended): when order submission fails during the SELL branch the
cycle emits `SELL_FAILED` with the error and the ledger is unchanged —
and on success the symbol is removed — but when submission fails during
a forced timebox exit the cycle emits `FORCED_EXIT_FAILED` with the
error and removes the symbol from the ledger anyway. -/
theorem claim_C3_failed_exit (sym : String) :
    (∀ (hl hb : ℚ) (ledger : Ledger) (e : String),
      0 < hl ∨ 0 < hb →
      run_once_sell (.error e) sym hl hb ledger = (ledger, RunRecord.sell_failed sym e)) ∧
    (∀ (oid : Option String) (hl hb : ℚ) (ledger : Ledger),
      0 < hl ∨ 0 < hb →
      run_once_sell (.ok oid) sym hl hb ledger =
        ((if (List.lookup sym ledger).isSome then ledger.pop sym else ledger),
          RunRecord.sell sym oid)) ∧
    (∀ (close : String → CloseResult) (now : ℤ) (ledger : Ledger) (p : Pos) (e : String),
      (ledger.map Prod.fst).Nodup →
      (sym, p) ∈ ledger → expiredQ now p = true → close sym = .error e →
      (RunRecord.forced_exit_failed sym e ∈ (enforce_timeboxes close now ledger).2 ∧
        ∀ q : Pos, ¬ ((sym, q) ∈ (enforce_timeboxes close now ledger).1))) := by
  refine ⟨?_, ?_, ?_⟩
  · intro hl hb ledger e hheld
    simp [run_once_sell, hheld]
  · intro oid hl hb ledger hheld
    simp [run_once_sell, hheld]
  · intro close now ledger p e hnd hmem hexp hclose
    constructor
    · rw [enforce_timeboxes_snd]
      refine List.mem_map.mpr ⟨(sym, p), List.mem_filter.mpr ⟨hmem, hexp⟩, ?_⟩
      simp [exit_record, hclose]
    · intro q hq
      rw [enforce_timeboxes_fst] at hq
      rcases List.mem_filter.mp hq with ⟨hqmem, hqlive⟩
      have hpq : p = q := keys_unique ledger hnd hmem hqmem
      rw [← hpq, hexp] at hqlive
      cases hqlive

/-- C3 (witness): the SELL branch with a failing order and a held
quantity leaves a one-row ledger unchanged and reports `SELL_FAILED`. -/
theorem claim_C3_failed_exit_witness :
    run_once_sell (.error "network down") "AAPL" 1 0 [("AAPL", posExp)] =
      ([("AAPL", posExp)], RunRecord.sell_failed "AAPL" "network down") :=
  (claim_C3_failed_exit "AAPL").1 1 0 [("AAPL", posExp)] "network down" (Or.inl (by norm_num))

/-! ## Ledger insert/lookup lemmas -/

theorem lookup_map_replace (s : String) (p : Pos) :
    ∀ l : Ledger, (List.lookup s l).isSome →
      List.lookup s (l.map (fun q => if q.1 = s then (s, p) else q)) = some p
  | [], h => by simp at h
  | (a1, a2) :: rest, h => by
    by_cases ha : a1 = s
    · subst ha
      simp
    · have hb : (s == a1) = false := beq_eq_false_iff_ne.mpr (Ne.symm ha)
      simp only [List.lookup_cons, hb] at h
      simp only [List.map_cons, if_neg ha, List.lookup_cons, hb]
      exact lookup_map_replace s p rest h

theorem lookup_insert_self (l : Ledger) (s : String) (p : Pos) :
    List.lookup s (Ledger.insert l s p) = some p := by
  unfold Ledger.insert
  by_cases h : (List.lookup s l).isSome
  · rw [if_pos h]
    exact lookup_map_replace s p l h
  · rw [if_neg h]
    have hn : List.lookup s l = none := by
      cases hx : List.lookup s l with
      | none => rfl
      | some v => rw [hx] at h; simp at h
    rw [List.lookup_append, hn]
    simp

/-- C7: merging onto an existing ledger row (for either value of the
`reset_timebox` flag) changes only `qty`, `notional` and `entry_price`;
`symbol`, `horizon`, `entered_at` and `timebox_until` are carried over
unchanged (for a well-formed row, i.e. one whose `horizon` and
`entered_at` are present, as every row the code creates has them). -/
theorem claim_C7_merge_frame (ledger : Ledger) (sym : String) (row : Pos)
    (hrow : List.lookup (upperStr sym) ledger = some row)
    (hh : row.horizon.isSome = true) (he : row.entered_at.isSome = true)
    (now : ℤ) (h : Horizon) (add_qty add_price add_notional : ℚ) (reset_timebox : Bool) :
    List.lookup (upperStr sym)
        (merge_entry ledger now sym h add_qty add_price add_notional reset_timebox) =
      some { row with
        qty := row.qty + add_qty
        notional := row.notional + add_notional
        entry_price := (row.notional + add_notional) /
          max (row.qty + add_qty) (1/1000000000) } := by
  obtain ⟨h0, hh0⟩ := Option.isSome_iff_exists.mp hh
  obtain ⟨t0, he0⟩ := Option.isSome_iff_exists.mp he
  unfold merge_entry
  simp only [hrow, lookup_insert_self, hh0, he0, Option.some.injEq]
  cases row
  simp_all

/-- C7 (witness): merging (1, 20) onto the row `posExp` at any later
time leaves horizon, entered_at and timebox_until untouched and
reprices to 15. -/
theorem claim_C7_merge_frame_witness :
    List.lookup "AAPL" (merge_entry [("AAPL", posExp)] 3 "AAPL" Horizon.mid 1 20 20 true) =
      some ⟨"AAPL", some Horizon.short, 2, 15, 30, some 0, some 5⟩ := by
  have hu : upperStr "AAPL" = "AAPL" := by decide
  have h := claim_C7_merge_frame [("AAPL", posExp)] "AAPL" posExp
    (by rw [hu]; exact List.lookup_cons_self) rfl rfl 3 Horizon.mid 1 20 20 true
  rw [hu] at h
  rw [h]
  norm_num [posExp, max_def]

/-- C6 (counterexample): with `q1 = q2 = 1e-10` and `p1 = p2 = 1` the
total quantity stays below the code's `1e-9` division guard, so the
merged entry price is `notional/1e-9 = 0.2`, not the volume-weighted
`1.0`, and `notional = qty * entry_price` fails. -/
theorem claim_C6_counterexample :
    List.lookup "AAPL"
        (merge_entry
          (set_timebox_on_entry [] 0 "AAPL" Horizon.short (1/10000000000) 1
            ((1/10000000000) * 1))
          0 "AAPL" Horizon.short (1/10000000000) 1 ((1/10000000000) * 1) false) =
      some ⟨"AAPL", some Horizon.short, 2/10000000000, 1/5, 2/10000000000,
        some 0, some 1⟩ ∧
    ¬ ((1/5 : ℚ) =
        ((1/10000000000) * 1 + (1/10000000000) * 1) / (1/10000000000 + 1/10000000000)) ∧
    ¬ ((2/10000000000 : ℚ) = 2/10000000000 * (1/5)) := by
  have hu : upperStr "AAPL" = "AAPL" := by decide
  refine ⟨?_, by norm_num, by norm_num⟩
  have hL1 : set_timebox_on_entry [] 0 "AAPL" Horizon.short (1/10000000000) 1
      ((1/10000000000) * 1) =
      [("AAPL", ⟨"AAPL", some Horizon.short, 1/10000000000, 1, (1/10000000000) * 1,
        some 0, some (0 + HORIZON_TIMEBOX Horizon.short)⟩)] := by
    simp [set_timebox_on_entry, Ledger.insert, hu]
  unfold merge_entry
  rw [hL1, hu]
  simp only [List.lookup_cons_self, lookup_insert_self, Option.some.injEq]
  have hmax : max ((1:ℚ)/10000000000 + 1/10000000000) (1/1000000000) = 1/1000000000 := by
    rw [max_def]
    norm_num
  norm_num [hmax, HORIZON_TIMEBOX]

/-- C6 (amended): for positive `(q1, p1)` and `(q2, p2)` whose total
quantity is at least the code's `1e-9` division guard, opening then
merging yields `qty = q1+q2`, `notional = q1*p1 + q2*p2` and
`entry_price = (q1*p1+q2*p2)/(q1+q2)` — the same ledger row a single
open at the volume-weighted price produces — so `notional = qty *
entry_price` holds after the merge.  (Below the guard the entry price is
`notional/1e-9` instead.) -/
theorem claim_C6_vwap_merge (now now2 : ℤ) (sym : String) (h : Horizon)
    (q1 p1 q2 p2 : ℚ) (hq1 : 0 < q1) (hp1 : 0 < p1) (hq2 : 0 < q2) (hp2 : 0 < p2)
    (hsum : 1/1000000000 ≤ q1 + q2) :
    List.lookup (upperStr sym)
        (merge_entry (set_timebox_on_entry [] now sym h q1 p1 (q1 * p1)) now2 sym h
          q2 p2 (q2 * p2) false) =
      some ⟨upperStr sym, some h, q1 + q2, (q1 * p1 + q2 * p2) / (q1 + q2),
        q1 * p1 + q2 * p2, some now, some (now + HORIZON_TIMEBOX h)⟩ ∧
    List.lookup (upperStr sym)
        (set_timebox_on_entry [] now sym h (q1 + q2) ((q1 * p1 + q2 * p2) / (q1 + q2))
          ((q1 + q2) * ((q1 * p1 + q2 * p2) / (q1 + q2)))) =
      some ⟨upperStr sym, some h, q1 + q2, (q1 * p1 + q2 * p2) / (q1 + q2),
        q1 * p1 + q2 * p2, some now, some (now + HORIZON_TIMEBOX h)⟩ ∧
    q1 * p1 + q2 * p2 = (q1 + q2) * ((q1 * p1 + q2 * p2) / (q1 + q2)) := by
  have hne : q1 + q2 ≠ 0 := ne_of_gt (add_pos hq1 hq2)
  have hcancel : (q1 + q2) * ((q1 * p1 + q2 * p2) / (q1 + q2)) = q1 * p1 + q2 * p2 := by
    rw [mul_comm, div_mul_cancel₀ _ hne]
  have hL1 : set_timebox_on_entry [] now sym h q1 p1 (q1 * p1) =
      [(upperStr sym, ⟨upperStr sym, some h, q1, p1, q1 * p1, some now,
        some (now + HORIZON_TIMEBOX h)⟩)] := by
    simp [set_timebox_on_entry, Ledger.insert]
  refine ⟨?_, ?_, hcancel.symm⟩
  · unfold merge_entry
    rw [hL1]
    simp only [List.lookup_cons_self, lookup_insert_self, Option.some.injEq]
    have hmax : (q1 + q2) ⊔ ((1000000000 : ℚ))⁻¹ = q1 + q2 := by
      refine max_eq_left ?_
      rw [inv_eq_one_div]
      exact hsum
    simp [hmax]
  · simp [set_timebox_on_entry, Ledger.insert, hcancel]

/-- C6 (witness): open (1, 2) then merge (1, 4): qty 2, notional 6,
entry price 3 — the volume-weighted average. -/
theorem claim_C6_vwap_merge_witness :
    List.lookup "AAPL"
        (merge_entry (set_timebox_on_entry [] 0 "AAPL" Horizon.short 1 2 (1 * 2)) 7 "AAPL"
          Horizon.short 1 4 (1 * 4) false) =
      some ⟨"AAPL", some Horizon.short, 1 + 1, (1 * 2 + 1 * 4) / (1 + 1), 1 * 2 + 1 * 4,
        some 0, some (0 + HORIZON_TIMEBOX Horizon.short)⟩ := by
  have h := claim_C6_vwap_merge 0 7 "AAPL" Horizon.short 1 2 1 4 (by norm_num)
    (by norm_num) (by norm_num) (by norm_num) (by norm_num)
  have hu : upperStr "AAPL" = "AAPL" := by decide
  rw [hu] at h
  exact h.1

/-- C9: the startup reconciliation keeps exactly the ledger entries whose
broker-reported quantity (0 when the broker does not list the translated
symbol) is positive, each kept entry unchanged and in order, and removes
the rest. -/
theorem claim_C9_reconcile (positions : List (String × ℚ)) (ledger : Ledger) :
    (∀ (s : String) (p : Pos),
      ((s, p) ∈ reconcile_ledger_with_broker positions ledger ↔
        (s, p) ∈ ledger ∧ 0 < broker_qty positions (to_broker_symbol s))) ∧
    List.Sublist (reconcile_ledger_with_broker positions ledger) ledger := by
  constructor
  · intro s p
    simp [reconcile_ledger_with_broker, List.mem_filter]
  · exact List.filter_sublist _

/-- C10: reading the ledger is total; a missing backing file and contents
that fail to parse both yield the empty ledger. -/
theorem claim_C10_read_ledger (parse : String → Except String Ledger) (contents : String)
    (e : String) :
    read_ledger none parse = [] ∧
    (parse contents = .error e → read_ledger (some contents) parse = []) := by
  refine ⟨rfl, fun h => ?_⟩
  simp [read_ledger, h]

theorem claim_C10_read_ledger_witness :
    read_ledger none (fun _ => Except.error "corrupted") = ([] : Ledger) ∧
    read_ledger (some "not-json") (fun _ => Except.error "corrupted") = ([] : Ledger) :=
  ⟨(claim_C10_read_ledger (fun _ => Except.error "corrupted") "not-json" "corrupted").1,
    (claim_C10_read_ledger (fun _ => Except.error "corrupted") "not-json" "corrupted").2 rfl⟩

end SmartTrader
